import Mathlib

/-!
# Verification of the amalgam-lisp evaluation core

This development shallowly embeds the evaluation core of the amalgam-lisp
interpreter (`src/amalgam/amalgams.py`, `src/amalgam/environment.py`,
`src/amalgam/primordials/{control,meta,utils,arithmetic,boolean,comparison}.py`)
and proves properties of it.

Modelling choices, mapping Python onto Lean values:

* `Amalgam` is the closed AST/value variant set.  `Numeric` is embedded at
  `Int` (the properties under study only involve integer literals; the
  `float`/`Fraction` payloads and the `Internal` host-object variant are
  outside the fragment they touch).  The diagnostic `Located` mixin carries
  `compare=False` fields used only for error rendering and is omitted.
* A `Function`'s underlying Python callable is defunctionalized into
  `FnCode`: either a registered primitive together with the `allows` list
  baked into its `make_function` wrapper, or a `create_fn` closure
  (argument names plus body).  Python compares `fn` fields by object
  identity; the model compares the defunctionalized code structurally.
* Environments form a mutable shared graph; the model threads an explicit
  store (`Store := List EnvData`) in which environments are denoted by their
  index.  Python's in-place attribute mutations (`search_depth`,
  `fn.in_context` on a `Function` object aliased by an environment binding)
  become functional updates of the store at the frame holding the binding;
  this is observationally equivalent for all programs in this development,
  none of which re-binds an aliased `Function` name while it is toggled.
* Python exceptions (`Failure`, `FailureStack`, `InvalidContextError`,
  `KeyError`, `ValueError`, and host-level errors such as the
  `AttributeError` raised by referencing the nonexistent
  `amalgam.amalgams.Notification` class) become the `Err` sum; a result
  (`Res`) carries the store on both success and failure, since raising an
  exception does not roll back mutations.
* Evaluation is fueled: `Res.timeout` marks fuel exhaustion and corresponds
  to no Python behaviour (the Python `loop` primitive can run forever).
-/

namespace AmalgamLisp

/-- The defunctionalized identities of the registered primitive callables
occurring in this development (`primordials/arithmetic.py`,
`comparison.py`, `control.py`, `meta.py`). -/
inductive Prim where
  | addP
  | eqP
  | ifP
  | setnP
  | letP
  | returnP
  | breakP
  | loopP
deriving DecidableEq

mutual

/-- The closed value/AST variant set of `amalgams.py` (class `Amalgam` and
its subclasses), restricted to the fragment exercised by the claims:
`Numeric` at `Int`, no `Internal`, no `Located` spans. -/
inductive Amalgam where
  | atom (value : String)
  | numeric (value : Int)
  | string (value : String)
  | symbol (value : String)
  | function (fn : FunctionVal)
  | sexpression (vals : List Amalgam)
  | vector (vals : List Amalgam)
  | quoted (value : Amalgam)

/-- The fields of `amalgams.Function`: `name`, the defunctionalized
callable `fn`, `defer`, `contextual`, the bound environment `env`
(an optional store index) and `in_context`. -/
inductive FunctionVal where
  | mk (name : String) (code : FnCode) (defer : Bool) (contextual : Bool)
       (envRef : Option Nat) (inContext : Bool)

/-- A `Function`'s underlying callable: either a primitive wrapped by
`make_function` (carrying its `allows` list), or a `create_fn` closure. -/
inductive FnCode where
  | prim (allows : List String) (p : Prim)
  | closure (fargs : List String) (fbody : Amalgam)

end

def FunctionVal.name : FunctionVal → String
  | .mk n _ _ _ _ _ => n

def FunctionVal.code : FunctionVal → FnCode
  | .mk _ c _ _ _ _ => c

def FunctionVal.defer : FunctionVal → Bool
  | .mk _ _ d _ _ _ => d

def FunctionVal.contextual : FunctionVal → Bool
  | .mk _ _ _ c _ _ => c

def FunctionVal.envRef : FunctionVal → Option Nat
  | .mk _ _ _ _ e _ => e

def FunctionVal.inContext : FunctionVal → Bool
  | .mk _ _ _ _ _ i => i

/-- A single `Failure` record: the node where evaluation failed, the
environment (store index) used there, and the message
(`amalgams.Failure.__init__`). -/
structure FailEntry where
  node : Amalgam
  envRef : Nat
  message : String

/-- The Python exceptions reachable from the embedded fragment.
`failure`/`failureStack` are `amalgams.Failure` / `amalgams.FailureStack`
(a `failureStack` lists its entries innermost first); `invalidContext` is
`amalgams.InvalidContextError` carrying its environment; `keyError` and
`valueError` are the host exceptions of the same names raised by
`environment.py`; `hostError` covers the remaining unchecked host errors
(`AttributeError`, `TypeError`, `IndexError`). -/
inductive Err where
  | failure (entry : FailEntry)
  | failureStack (entries : List FailEntry)
  | invalidContext (envRef : Nat)
  | keyError (key : String)
  | valueError (msg : String)
  | hostError (msg : String)

/-- One environment frame (`environment.Environment`): `bindings` is the
name-to-value dict (an association list with unique keys), `parent` an
optional store index, plus `level`, `search_depth` and the diagnostic
`name`.  The `engine` back-reference is outside the embedded fragment. -/
structure EnvData where
  bindings : List (String × Amalgam)
  parent : Option Nat
  level : Nat
  searchDepth : Int
  name : String

/-- The heap of environment frames; a frame is denoted by its index. -/
abbrev Store := List EnvData

/-- Dict lookup on a bindings association list. -/
def lookupB : List (String × Amalgam) → String → Option Amalgam
  | [], _ => none
  | (k₁, v₁) :: rest, k => if k₁ = k then some v₁ else lookupB rest k

/-- Dict membership test on a bindings association list. -/
def containsB (bs : List (String × Amalgam)) (k : String) : Bool :=
  (lookupB bs k).isSome

/-- Dict assignment on a bindings association list: replaces the value in
place if the key exists, appends otherwise (Python dict semantics, with
unique keys preserved). -/
def setB : List (String × Amalgam) → String → Amalgam → List (String × Amalgam)
  | [], k, v => [(k, v)]
  | (k₁, v₁) :: rest, k, v =>
      if k₁ = k then (k₁, v) :: rest else (k₁, v₁) :: setB rest k v

/-- Builds a dict from a key/value sequence, later entries overriding
earlier ones (`dict(...)` over an iterable of pairs). -/
def dictOf (ps : List (String × Amalgam)) : List (String × Amalgam) :=
  ps.foldl (fun acc kv => setB acc kv.1 kv.2) []

/-- Error message standing for the `AttributeError` raised when Python
resolves the name `amalgam.amalgams.Notification`: no class of that name
is defined anywhere in the source tree, although `primordials/meta.py`
(`_setn`, `_let`) and `engine.py` refer to it. -/
def notifMissingMsg : String :=
  "AttributeError: module amalgam.amalgams has no attribute Notification"

/-- Error message standing for a `TypeError` raised by the host (for
example a primitive applied at the wrong arity). -/
def typeErrMsg : String := "TypeError"

/-- Error message standing for the `AttributeError` raised when an
environment walk steps past the root (`NoneType` has no `bindings`);
unreachable when levels are consistent. -/
def attrNoneMsg : String := "AttributeError: NoneType has no attribute bindings"

/-- Error message for a dangling store index.  Python environment objects
cannot dangle; this is an artifact of denoting them by indices and is
unreachable from the seeded programs below. -/
def badRefMsg : String := "invalid environment reference"

/-- Error message standing for the `IndexError` raised by
`SExpression.func` on an empty S-expression. -/
def indexErrMsg : String := "IndexError: tuple index out of range"

/-- Error message of the `ValueError` raised by `Environment.search_at`
when the requested depth exceeds the frame's level. -/
def depthErrMsg : String := "depth is greater than maximum level"

/-- Updates the `search_depth` attribute of the frame at index `i`
(no-op on a dangling index, which is unreachable). -/
def setSd (s : Store) (i : Nat) (d : Int) : Store :=
  match s[i]? with
  | some f => s.set i { f with searchDepth := d }
  | none => s

/-- Dict-assigns `k ↦ v` in the bindings of the frame at index `i`. -/
def updateBinding (s : Store) (i : Nat) (k : String) (v : Amalgam) : Store :=
  match s[i]? with
  | some f => s.set i { f with bindings := setB f.bindings k v }
  | none => s

/-- The walk of `Environment.__getitem__`: up to `steps` frames starting
from `ref`, following `parent` links; first hit wins, exhaustion raises
`KeyError`, stepping onto an absent parent raises the host error the
Python loop would raise on `None.bindings`. -/
def getItemLoop (s : Store) : Nat → Option Nat → String → Except Err Amalgam
  | 0, _, item => .error (.keyError item)
  | _ + 1, none, _ => .error (.hostError attrNoneMsg)
  | n + 1, some i, item =>
      match s[i]? with
      | none => .error (.hostError badRefMsg)
      | some f =>
          match lookupB f.bindings item with
          | some v => .ok v
          | none => getItemLoop s n f.parent item

/-- `Environment.__getitem__`: the walk length is `search_depth + 1` when
`search_depth >= 0` and `level + 1` otherwise. -/
def getItem (s : Store) (ρ : Nat) (item : String) : Except Err Amalgam :=
  match s[ρ]? with
  | none => .error (.hostError badRefMsg)
  | some f =>
      let depth : Nat :=
        if 0 ≤ f.searchDepth then f.searchDepth.toNat + 1 else f.level + 1
      getItemLoop s depth (some ρ) item

/-- Variant of the `__getitem__` walk that yields the index of the frame
where the item is bound; used to model `make_function` capturing the
`Function` objects it will toggle (the object lives in that frame's
bindings). -/
def getItemRefLoop (s : Store) : Nat → Option Nat → String → Except Err Nat
  | 0, _, item => .error (.keyError item)
  | _ + 1, none, _ => .error (.hostError attrNoneMsg)
  | n + 1, some i, item =>
      match s[i]? with
      | none => .error (.hostError badRefMsg)
      | some f =>
          if containsB f.bindings item then .ok i
          else getItemRefLoop s n f.parent item

/-- `Environment.__getitem__`, resolved to the frame index of the hit. -/
def getItemRef (s : Store) (ρ : Nat) (item : String) : Except Err Nat :=
  match s[ρ]? with
  | none => .error (.hostError badRefMsg)
  | some f =>
      let depth : Nat :=
        if 0 ≤ f.searchDepth then f.searchDepth.toNat + 1 else f.level + 1
      getItemRefLoop s depth (some ρ) item

/-- The walk of `Environment.__setitem__`: up to `steps` membership tests
starting from `ref`; an existing binding is overridden in place, and when
the tests are exhausted the final frame receives the binding (the
`for`/`else` of the Python loop). -/
def setItemLoop (s : Store) : Nat → Option Nat → String → Amalgam → Except Err Store
  | 0, none, _, _ => .error (.hostError attrNoneMsg)
  | 0, some i, item, v =>
      match s[i]? with
      | some _ => .ok (updateBinding s i item v)
      | none => .error (.hostError badRefMsg)
  | _ + 1, none, _, _ => .error (.hostError attrNoneMsg)
  | n + 1, some i, item, v =>
      match s[i]? with
      | none => .error (.hostError badRefMsg)
      | some f =>
          if containsB f.bindings item then .ok (updateBinding s i item v)
          else setItemLoop s n f.parent item v

/-- `Environment.__setitem__`: the walk length is `search_depth` when
`search_depth >= 0` and `level` otherwise (one less than the lookup walk:
the final frame is written without a membership test). -/
def setItem (s : Store) (ρ : Nat) (item : String) (v : Amalgam) : Except Err Store :=
  match s[ρ]? with
  | none => .error (.hostError badRefMsg)
  | some f =>
      let depth : Nat :=
        if 0 ≤ f.searchDepth then f.searchDepth.toNat else f.level
      setItemLoop s depth (some ρ) item v

/-- `Environment.env_push`: appends a child frame whose parent is `ρ`. -/
def envPush (s : Store) (ρ : Nat) (bs : List (String × Amalgam)) (nm : String) :
    Except Err (Nat × Store) :=
  match s[ρ]? with
  | none => .error (.hostError badRefMsg)
  | some f => .ok (s.length, s ++ [⟨bs, some ρ, f.level + 1, 0, nm⟩])

mutual

/-- Python `==` on `Amalgam` values: dataclass equality compares the class
and the `compare=True` fields.  On `Function` those are `name`, `fn`,
`defer` and `contextual` (`env` and `in_context` carry `compare=False`);
the Python identity comparison of the `fn` callables is rendered as
structural equality of the defunctionalized code. -/
def pyEq (a b : Amalgam) : Bool :=
  match a, b with
  | .atom a, .atom b => a == b
  | .numeric a, .numeric b => a == b
  | .string a, .string b => a == b
  | .symbol a, .symbol b => a == b
  | .function f, .function g => pyEqFn f g
  | .sexpression xs, .sexpression ys => pyEqList xs ys
  | .vector xs, .vector ys => pyEqList xs ys
  | .quoted a, .quoted b => pyEq a b
  | _, _ => false
termination_by structural a

/-- Equality of the `compare=True` fields of `Function`. -/
def pyEqFn (f g : FunctionVal) : Bool :=
  match f, g with
  | .mk n c d x _ _, .mk n₂ c₂ d₂ x₂ _ _ =>
      n == n₂ && d == d₂ && x == x₂ && pyEqCode c c₂
termination_by structural f

/-- Structural stand-in for Python identity of the underlying callables. -/
def pyEqCode (c c₂ : FnCode) : Bool :=
  match c, c₂ with
  | .prim al p, .prim al₂ p₂ => al == al₂ && p == p₂
  | .closure as b, .closure as₂ b₂ => as == as₂ && pyEq b b₂
  | _, _ => false
termination_by structural c

/-- Elementwise Python `==` on tuples of values. -/
def pyEqList (xs ys : List Amalgam) : Bool :=
  match xs, ys with
  | [], [] => true
  | x :: xs, y :: ys => pyEq x y && pyEqList xs ys
  | _, _ => false
termination_by structural xs

end

/-- The accumulation loop of `Vector._as_mapping`: pairs up the values,
requiring an `Atom` at every even index; dict assignment overrides
duplicates.  `none` renders the early `return {}`. -/
def asMappingLoop : List (String × Amalgam) → List Amalgam →
    Option (List (String × Amalgam))
  | acc, [] => some acc
  | acc, .atom a :: v :: rest => asMappingLoop (setB acc a v) rest
  | _, _ :: _ :: _ => none
  | _, [_] => none

/-- `Vector._as_mapping`: empty unless the length is even and nonzero and
every even-indexed element is an `Atom`. -/
def asMapping (vals : List Amalgam) : List (String × Amalgam) :=
  if vals.length % 2 ≠ 0 ∨ vals.length = 0 then []
  else
    match asMappingLoop [] vals with
    | some m => m
    | none => []

/-- Reads `result.mapping["payload"]`-style access as `_loop` performs it:
only a `Vector` carries a `mapping` attribute (`AttributeError` on every
other variant, caught by `_loop`), and a missing key is a caught
`KeyError`; both appear here as `none`. -/
def payloadOf (key : String) : Amalgam → Option Amalgam
  | .vector vs => lookupB (asMapping vs) key
  | _ => none

/-- The body of `primordials/boolean.py` `_bool`: the five falsy
comparisons, everything else truthy. -/
def boolCore (expr : Amalgam) : Amalgam :=
  if pyEq expr (.string "") then .atom "FALSE"
  else if pyEq expr (.numeric 0) then .atom "FALSE"
  else if pyEq expr (.vector []) then .atom "FALSE"
  else if pyEq expr (.atom "FALSE") then .atom "FALSE"
  else if pyEq expr (.atom "NIL") then .atom "FALSE"
  else .atom "TRUE"

/-- Argument binding of a `create_fn` closure (`closure_fn`): one optional
`&rest` marker splits the formal names into a leading fixed group, a
packed `Vector` group, and a trailing fixed group; without the marker the
formals are zipped against the arguments.  Python's negative slices
`xs[-r:]` and `xs[l:-r]` are rendered with truncating `Nat` subtraction,
which matches their clamping behaviour. -/
def closureBindings (fargs : List String) (args : List Amalgam) :
    List (String × Amalgam) :=
  match fargs.indexOf? "&rest" with
  | none => dictOf ((fargs.zip args).map (fun kv => (kv.1, kv.2)))
  | some lCount =>
      let rCount := fargs.length - lCount - 1
      let lNames := (fargs.take lCount).zip (args.take lCount)
      if rCount = 0 then
        dictOf (lNames ++ [("&rest", .vector (args.drop lCount))])
      else
        let rNames := (fargs.drop (fargs.length - rCount)).zip
          (args.drop (args.length - rCount))
        let mid := Amalgam.vector ((args.take (args.length - rCount)).drop lCount)
        dictOf (lNames ++ [("&rest", mid)] ++ rNames)

/-- Result of one evaluation step: a value or a raised exception, each
carrying the store as mutated so far (exceptions do not roll back state);
`timeout` marks fuel exhaustion, which corresponds to no Python outcome. -/
inductive Res where
  | ok (value : Amalgam) (store : Store)
  | err (e : Err) (store : Store)
  | timeout

/-- Result of evaluating a sequence of expressions left to right. -/
inductive ResL where
  | okL (values : List Amalgam) (store : Store)
  | errL (e : Err) (store : Store)
  | timeoutL

/-- `Environment.search_at` as a higher-order block: validates the depth
against the level, sets `search_depth`, runs the body, and the `finally`
clause resets `search_depth` to `0` on every exit path. -/
def searchAtRun (ρ : Nat) (depth : Int) (s : Store) (body : Store → Res) : Res :=
  match s[ρ]? with
  | none => .err (.hostError badRefMsg) s
  | some f =>
      if (f.level : Int) < depth then .err (.valueError depthErrMsg) s
      else
        match body (setSd s ρ depth) with
        | .ok v s₂ => .ok v (setSd s₂ ρ 0)
        | .err e s₂ => .err e (setSd s₂ ρ 0)
        | .timeout => .timeout

/-- The `fns = [env[allow] for allow in allows]` comprehension inside the
`with env.search_at(depth=-1)` block of `make_function`: resolves each
allowed sibling name to the frame holding it (the Python code captures the
`Function` object itself; the frame/name pair is its address here). -/
def collectAllows (s : Store) (ρ : Nat) : List String → Except Err (List (Nat × String))
  | [] => .ok []
  | a :: rest =>
      match getItemRef s ρ a with
      | .ok i =>
          match collectAllows s ρ rest with
          | .ok ls => .ok ((i, a) :: ls)
          | .error e => .error e
      | .error e => .error e

/-- Writes the `in_context` attribute of the `Function` object stored at
the given frame/name address (`fn.in_context = b`). -/
def setFnFlag (s : Store) (loc : Nat × String) (b : Bool) : Store :=
  match s[loc.1]? with
  | none => s
  | some f =>
      match lookupB f.bindings loc.2 with
      | some (.function (.mk n c d x e _)) =>
          s.set loc.1
            { f with bindings := setB f.bindings loc.2 (.function (.mk n c d x e b)) }
      | _ => s

/-- Toggles `in_context` on every captured sibling (`for fn in fns`). -/
def setFnFlags (s : Store) (locs : List (Nat × String)) (b : Bool) : Store :=
  locs.foldl (fun s₁ l => setFnFlag s₁ l b) s

/-- The per-pair validation of `_let` (`primordials/meta.py`): a pair that
is not a two-element `Vector`, or whose head is not a `Symbol`, makes
`_let` execute `am.Notification()` — and `amalgam.amalgams` defines no
`Notification` class, so the actual outcome is a host `AttributeError` at
both sites.  On success the names and value expressions are collected. -/
def parseLetPairs : List Amalgam → Except Err (List String × List Amalgam)
  | [] => .ok ([], [])
  | p :: rest =>
      match p with
      | .vector [name, value] =>
          match name with
          | .symbol n =>
              match parseLetPairs rest with
              | .ok nv => .ok (n :: nv.1, value :: nv.2)
              | .error e => .error e
          | _ => .error (.hostError notifMissingMsg)
      | _ => .error (.hostError notifMissingMsg)

/-- Python iteration over the `pairs` argument of `_let`: `Vector` and
`SExpression` expose `__iter__`; every other variant raises `TypeError`. -/
def pyIterVals : Amalgam → Option (List Amalgam)
  | .vector vs => some vs
  | .sexpression vs => some vs
  | _ => none

/-! ## The evaluator

The only genuinely recursive knots of the interpreter are the
evaluate/call recursion (rendered by `eval`, structurally recursive on a
fuel counter and passing itself, at the already-decremented fuel, to the
helpers as the parameter `ev`) and the `while True` of `_loop` (rendered
by `loopRunF`, structurally recursive on its own pass counter).  All other
helpers are plain non-recursive definitions over `ev`, so the whole
evaluator reduces definitionally on closed inputs. -/

/-- The tail of `create_fn.closure_fn` once the bindings dict is built:
push the closure environment, evaluate the body there, and bind a
resulting `Function` to that environment. -/
def closureApplyF (ev : Amalgam → Nat → Store → Res) (fname : String)
    (fargs : List String) (fbody : Amalgam) (args : List Amalgam)
    (ρ : Nat) (s : Store) : Res :=
  match envPush s ρ (closureBindings fargs args) (fname ++ "-closure") with
  | .error e => .err e s
  | .ok (ρc, s₁) =>
      match ev fbody ρc s₁ with
      | .ok (.function (.mk n c d x _ i)) s₂ =>
          .ok (.function (.mk n c d x (some ρc) i)) s₂
      | r => r

/-- Left-to-right evaluation of a sequence of expressions, stopping at the
first raised exception: the argument comprehension of `Function.call` and
the generator consumed by `Vector.evaluate`. -/
def evalSeqF (ev : Amalgam → Nat → Store → Res) :
    List Amalgam → Nat → Store → ResL
  | [], _, s => .okL [] s
  | v :: rest, ρ, s =>
      match ev v ρ s with
      | .ok x s₁ =>
          match evalSeqF ev rest ρ s₁ with
          | .okL xs s₂ => .okL (x :: xs) s₂
          | r => r
      | .err e s₁ => .errL e s₁
      | .timeout => .timeoutL

/-- One `for expr in exprs` pass of `_loop`: each expression is evaluated;
a result whose mapping view holds `"payload"` ends the loop with that
payload, any raised exception propagates, and an exhausted pass continues
with `next`. -/
def loopPassF (ev : Amalgam → Nat → Store → Res) (next : Store → Res) :
    List Amalgam → Nat → Store → Res
  | [], _, s => next s
  | e :: rest, ρ, s =>
      match ev e ρ s with
      | .ok v s₁ =>
          match payloadOf "payload" v with
          | some pv => .ok pv s₁
          | none => loopPassF ev next rest ρ s₁
      | r => r

/-- The `while True` of `_loop`, fueled by a pass counter. -/
def loopRunF (ev : Amalgam → Nat → Store → Res) :
    Nat → List Amalgam → Nat → Store → Res
  | 0, _, _, _ => .timeout
  | fuel + 1, exprs, ρ, s =>
      loopPassF ev (fun s₂ => loopRunF ev fuel exprs ρ s₂) exprs ρ s

/-- The state effect of calling a `make_function`-wrapped primitive whose
`allows` list is empty (such as `_bool` and `_fn` when invoked directly as
Python functions from `_if` and `_let`): the `with env.search_at(depth=-1)`
block collects nothing, sets `search_depth` to `-1` and restores it to `0`. -/
def emptyWrapState (ρ : Nat) (s : Store) : Store :=
  setSd (setSd s ρ (-1)) ρ 0

/-- The body of `_let` (`primordials/meta.py`): iterate the pairs
(validating each one), then build the `~lambda~` closure exactly as `_fn`
does — binding it to `env` when `env` has a parent — and invoke its
`Function.call` on the collected value expressions.  The `Function.call`
steps for the just-built closure are inlined here (environment
replacement, no contextual check since the closure is not contextual,
eager argument evaluation, then `closure_fn`); this breaks the otherwise
cyclic helper graph and is observationally the general call path. -/
def letRunF (ev : Amalgam → Nat → Store → Res) (pairs : Amalgam)
    (body : Amalgam) (ρ : Nat) (s : Store) : Res :=
  match pyIterVals pairs with
  | none => .err (.hostError typeErrMsg) s
  | some pvs =>
      match parseLetPairs pvs with
      | .error e => .err e s
      | .ok (names, values) =>
          let s₁ := emptyWrapState ρ s
          match s₁[ρ]? with
          | none => .err (.hostError badRefMsg) s₁
          | some f =>
              let envB : Option Nat := if f.parent.isSome then some ρ else none
              let ρc := envB.getD ρ
              match evalSeqF ev values ρc s₁ with
              | .okL vs s₂ => closureApplyF ev "~lambda~" names body vs ρc s₂
              | .errL e s₂ => .err e s₂
              | .timeoutL => .timeout

/-- The `num.value` extraction of `_add` (`sum(num.value for num in nums)`):
a non-numeric argument makes the host `sum` raise `TypeError`. -/
def numValues : List Amalgam → Option (List Int)
  | [] => some []
  | .numeric n :: rest => (numValues rest).map (fun ns => n :: ns)
  | _ => none

/-- The core of each registered primitive (the decorated functions of
`primordials/`), dispatched after `make_function`'s wrapper has toggled
the allowed siblings.  A call at an arity the Python signature rejects is
a host `TypeError`. -/
def runPrimF (ev : Amalgam → Nat → Store → Res) (loopFuel : Nat) (p : Prim)
    (args : List Amalgam) (ρ : Nat) (s : Store) : Res :=
  match p with
  | .addP =>
      match numValues args with
      | some ns => .ok (.numeric (ns.foldl (· + ·) 0)) s
      | none => .err (.hostError typeErrMsg) s
  | .eqP =>
      match args with
      | [x, y] => .ok (.atom (if pyEq x y then "TRUE" else "FALSE")) s
      | _ => .err (.hostError typeErrMsg) s
  | .ifP =>
      match args with
      | [c, t, e] =>
          match ev c ρ s with
          | .ok cv s₁ =>
              let s₂ := emptyWrapState ρ s₁
              if pyEq (boolCore cv) (.atom "TRUE") then ev t ρ s₂ else ev e ρ s₂
          | r => r
      | _ => .err (.hostError typeErrMsg) s
  | .setnP =>
      match args with
      | [_, amal] =>
          match ev amal ρ s with
          | .ok _ s₁ =>
              -- `_setn` then executes `isinstance(value, am.Notification)`;
              -- resolving `am.Notification` raises AttributeError, so the
              -- binding is never written.
              .err (.hostError notifMissingMsg) s₁
          | r => r
      | _ => .err (.hostError typeErrMsg) s
  | .returnP =>
      match args with
      | [r] => .ok (.vector [.atom "payload", r]) s
      | _ => .err (.hostError typeErrMsg) s
  | .breakP =>
      match args with
      | [] => .ok (.vector [.atom "payload", .atom "NIL"]) s
      | _ => .err (.hostError typeErrMsg) s
  | .loopP => loopRunF ev loopFuel args ρ s
  | .letP =>
      match args with
      | [pairs, body] => letRunF ev pairs body ρ s
      | _ => .err (.hostError typeErrMsg) s

/-- The `_func` wrapper `make_function` puts around every primitive:
inside `search_at(depth=-1)` it captures the `Function` objects named by
`allows`, sets their `in_context` to `true`, runs the primitive, and sets
them back to `false` after it returns.  There is no `try`/`finally`
around the primitive, so a raised exception skips the reset. -/
def wrapRunF (ev : Amalgam → Nat → Store → Res) (loopFuel : Nat)
    (allows : List String) (p : Prim) (args : List Amalgam)
    (ρ : Nat) (s : Store) : Res :=
  match s[ρ]? with
  | none => .err (.hostError badRefMsg) s
  | some _ =>
      let s₁ := setSd s ρ (-1)
      match collectAllows s₁ ρ allows with
      | .error e => .err e (setSd s₁ ρ 0)
      | .ok locs =>
          let s₂ := setFnFlags (setSd s₁ ρ 0) locs true
          match runPrimF ev loopFuel p args ρ s₂ with
          | .ok v s₃ => .ok v (setFnFlags s₃ locs false)
          | r => r

/-- Dispatch on a `Function`'s underlying callable with already-processed
arguments: a wrapped primitive or a `create_fn` closure. -/
def applyFnF (ev : Amalgam → Nat → Store → Res) (loopFuel : Nat)
    (fv : FunctionVal) (args : List Amalgam) (ρ : Nat) (s : Store) : Res :=
  match fv.code with
  | .prim allows p => wrapRunF ev loopFuel allows p args ρ s
  | .closure fargs fbody => closureApplyF ev fv.name fargs fbody args ρ s

/-- `Function.call`: replace the caller's environment by the bound one
when present, then reject a contextual call out of context
(`InvalidContextError`), then either pass the arguments unevaluated
(`defer`) or evaluate them in order against the (possibly replaced)
environment, and finally invoke the underlying callable. -/
def callFnF (ev : Amalgam → Nat → Store → Res) (loopFuel : Nat)
    (fv : FunctionVal) (args : List Amalgam) (envρ : Nat) (s : Store) : Res :=
  let ρ := fv.envRef.getD envρ
  if fv.contextual && !fv.inContext then .err (.invalidContext ρ) s
  else if fv.defer then applyFnF ev loopFuel fv args ρ s
  else
    match evalSeqF ev args ρ s with
    | .okL vs s₁ => applyFnF ev loopFuel fv vs ρ s₁
    | .errL e s₁ => .err e s₁
    | .timeoutL => .timeout

/-- The un-decorated `evaluate` bodies of each `Amalgam` subclass
(`namespace["__evaluate"]`): literals return themselves, `Symbol` performs
the full-depth lookup inside `search_at(-1)` and turns a `KeyError` into a
`Failure`, `SExpression` evaluates its head and calls it (reconstructing
an `InvalidContextError` into a `FailureStack` on the unevaluated head,
and failing with "not a callable" on a non-`Function` head), and `Vector`
evaluates its items left to right into a new `Vector`. -/
def evalCoreF (ev : Amalgam → Nat → Store → Res) (loopFuel : Nat)
    (a : Amalgam) (ρ : Nat) (s : Store) : Res :=
  match a with
  | .atom v => .ok (.atom v) s
  | .numeric v => .ok (.numeric v) s
  | .string v => .ok (.string v) s
  | .quoted v => .ok (.quoted v) s
  | .function fv => .ok (.function fv) s
  | .symbol n =>
      match searchAtRun ρ (-1) s (fun s₁ =>
        match getItem s₁ ρ n with
        | .ok v => .ok v s₁
        | .error e => .err e s₁) with
      | .err (.keyError _) s₂ =>
          .err (.failure ⟨.symbol n, ρ, "unbound symbol"⟩) s₂
      | r => r
  | .sexpression vals =>
      match vals with
      | [] => .err (.hostError indexErrMsg) s
      | f :: args =>
          match ev f ρ s with
          | .ok (.function fv) s₁ =>
              match callFnF ev loopFuel fv args ρ s₁ with
              | .err (.invalidContext e) s₂ =>
                  .err (.failureStack [⟨f, e, "invalid context"⟩]) s₂
              | r => r
          | .ok h s₁ => .err (.failureStack [⟨h, ρ, "not a callable"⟩]) s₁
          | r => r
  | .vector vals =>
      match evalSeqF ev vals ρ s with
      | .okL vs s₁ => .ok (.vector vs) s₁
      | .errL e s₁ => .err e s₁
      | .timeoutL => .timeout

/-- The decorated `evaluate` installed by `AmalgamMeta.__new__`: runs the
un-decorated body, converts a raised `Failure` into a one-entry
`FailureStack`, pushes `(self, environment, "inherited")` onto a raised
`FailureStack`, and re-raises every other exception unchanged. -/
def eval : Nat → Amalgam → Nat → Store → Res
  | 0, _, _, _ => .timeout
  | fuel + 1, a, ρ, s =>
      match evalCoreF (eval fuel) fuel a ρ s with
      | .err (.failure f) s₂ => .err (.failureStack [f]) s₂
      | .err (.failureStack fs) s₂ =>
          .err (.failureStack (fs ++ [⟨a, ρ, "inherited"⟩])) s₂
      | r => r

/-! ## The seeded global environment and the programs under study -/

/-- A registered primitive `Function` value as `make_function` stores it
(`env = None`, `in_context = False`). -/
def mkPrim (name : String) (p : Prim) (defer contextual : Bool)
    (allows : List String) : Amalgam :=
  .function (.mk name (.prim allows p) defer contextual none false)

/-- The subset of the `FUNCTIONS` registry needed by the programs under
study, with the flags of their registrations: `+` and `=` eager, `if`,
`setn`, `let` and `loop` deferred, `return` and `break` contextual, and
`loop` allowing `break` and `return`. -/
def rootBindings : List (String × Amalgam) :=
  [("+", mkPrim "+" .addP false false []),
   ("=", mkPrim "=" .eqP false false []),
   ("if", mkPrim "if" .ifP true false []),
   ("setn", mkPrim "setn" .setnP true false []),
   ("let", mkPrim "let" .letP true false []),
   ("return", mkPrim "return" .returnP false true []),
   ("break", mkPrim "break" .breakP false true []),
   ("loop", mkPrim "loop" .loopP true false ["break", "return"])]

/-- The root environment as the `Engine` seeds it (`name="global"`,
level `0`, no parent). -/
def rootStore : Store := [⟨rootBindings, none, 0, 0, "global"⟩]

/-- Reads the `in_context` flag of the `Function` bound to `n` in the
frame at index `i`. -/
def inContextOf (s : Store) (i : Nat) (n : String) : Option Bool :=
  match s[i]? with
  | none => none
  | some f =>
      match lookupB f.bindings n with
      | some (.function fv) => some fv.inContext
      | _ => none

/-- The program of `test_loop_break`: `(loop (break) (setn x 42))`. -/
def loopBreakProg : Amalgam :=
  .sexpression [.symbol "loop",
    .sexpression [.symbol "break"],
    .sexpression [.symbol "setn", .symbol "x", .numeric 42]]

/-- The program of `test_loop_fatal`: `(loop y)` with `y` unbound. -/
def loopFatalProg : Amalgam :=
  .sexpression [.symbol "loop", .symbol "y"]

/-- The program of `test_loop_return`:
`(loop (if (= x 10) (return 42) :NIL) (setn x (+ x 1)))`. -/
def loopReturnProg : Amalgam :=
  .sexpression [.symbol "loop",
    .sexpression [.symbol "if",
      .sexpression [.symbol "=", .symbol "x", .numeric 10],
      .sexpression [.symbol "return", .numeric 42],
      .atom "NIL"],
    .sexpression [.symbol "setn", .symbol "x",
      .sexpression [.symbol "+", .symbol "x", .numeric 1]]]

/-- The root store with the counter `x` pre-bound to `0`, as
`test_loop_return` sets it up. -/
def counterStore : Store := updateBinding rootStore 0 "x" (.numeric 0)

/-- The store after the fatal `(loop y)` run: the `in_context` toggles of
`break` and `return` are left set, because `make_function`'s wrapper has
no `try`/`finally` and the raised `FailureStack` skips the reset. -/
def stuckStore : Store :=
  setFnFlags rootStore [(0, "break"), (0, "return")] true

/-- A malformed `let`: `(let [[x]] ())`, whose single binding entry is a
one-element vector rather than a pair. -/
def letBadProg : Amalgam :=
  .sexpression [.symbol "let",
    .vector [.vector [.symbol "x"]],
    .sexpression []]

/-- The registered `Function` value of `+`, used for direct
`Function.call` invocations as the repository's own tests perform them. -/
def plusFnVal : FunctionVal :=
  .mk "+" (.prim [] .addP) false false none false

/-- A contextual `Function` (never toggled into context) carrying a bound
environment: frame `1` of `twoFrameStore`.  Its underlying callable is
irrelevant (never invoked); `_break`'s is used. -/
def ctxFnVal : FunctionVal :=
  .mk "ctxf" (.prim [] .breakP) false true (some 1) false

/-- A two-frame store: the caller's root frame `0` binds `f` to
`ctxFnVal`, and frame `1` is the environment `ctxFnVal` has captured. -/
def twoFrameStore : Store :=
  [⟨[("f", .function ctxFnVal)], none, 0, 0, "global"⟩,
   ⟨[], some 0, 1, 0, "captured"⟩]

/-! ## Specification-side helpers for the environment-chain theorems -/

/-- Checks that the parent chain starting at `ref` is consistent (each
frame exists, its `level` counts the remaining frames, and the chain ends
at a root) over exactly `k` frames. -/
def chainOkAux (s : Store) : Nat → Option Nat → Bool
  | 0, ref => ref.isNone
  | _ + 1, none => false
  | k + 1, some i =>
      match s[i]? with
      | none => false
      | some f => f.level == k && chainOkAux s k f.parent

/-- Consistency of the parent chain of the frame at `ρ`: its `level + 1`
frames reach the root. -/
def chainOk (s : Store) (ρ : Nat) : Bool :=
  match s[ρ]? with
  | some f => chainOkAux s (f.level + 1) (some ρ)
  | none => false

/-- The frame indices of the parent chain starting at `ref`, up to `k`
frames. -/
def ancestorsAux (s : Store) : Nat → Option Nat → List Nat
  | 0, _ => []
  | _ + 1, none => []
  | k + 1, some i =>
      i :: (match s[i]? with
            | some f => ancestorsAux s k f.parent
            | none => [])

/-- The full parent chain of the frame at `ρ` (itself first, root last),
derived from the parent links and the frame's `level`. -/
def ancestors (s : Store) (ρ : Nat) : List Nat :=
  match s[ρ]? with
  | some f => ancestorsAux s (f.level + 1) (some ρ)
  | none => []

/-- The value bound to `n` in the first frame of `refs` that binds it. -/
def firstBinding (s : Store) : List Nat → String → Option Amalgam
  | [], _ => none
  | i :: rest, n =>
      match s[i]? with
      | none => firstBinding s rest n
      | some f =>
          match lookupB f.bindings n with
          | some v => some v
          | none => firstBinding s rest n

/-- The first frame of `refs` that binds `n`. -/
def firstBindingRef (s : Store) : List Nat → String → Option Nat
  | [], _ => none
  | i :: rest, n =>
      match s[i]? with
      | none => firstBindingRef s rest n
      | some f =>
          if containsB f.bindings n then some i
          else firstBindingRef s rest n

/-- The store a result carries (`none` only on fuel exhaustion). -/
def resStore : Res → Option Store
  | .ok _ s => some s
  | .err _ s => some s
  | .timeout => none

/-- The `search_depth` attribute of the frame at `i`. -/
def sdAt (s : Store) (i : Nat) : Option Int :=
  (s[i]?).map (fun f => f.searchDepth)

/-- The `bindings` dict of the frame at `i`. -/
def bindingsAt (s : Store) (i : Nat) : Option (List (String × Amalgam)) :=
  (s[i]?).map (fun f => f.bindings)

/-- The fields of a frame that the lookup and assignment walks read:
`bindings`, `parent` and `level` (`search_depth` of frames other than the
starting one is never consulted). -/
def walkView (s : Store) (i : Nat) : Option (List (String × Amalgam) × Option Nat × Nat) :=
  (s[i]?).map (fun f => (f.bindings, f.parent, f.level))

/-! ## Auxiliary lemmas about the store and the walks -/

theorem lt_of_getElem?_some {s : Store} {i : Nat} {f : EnvData}
    (h : s[i]? = some f) : i < s.length := by
  by_contra hge
  rw [List.getElem?_eq_none (Nat.le_of_not_lt hge)] at h
  exact Option.noConfusion h

theorem length_setSd (s : Store) (i : Nat) (d : Int) :
    (setSd s i d).length = s.length := by
  unfold setSd
  cases h : s[i]? <;> simp

theorem getElem?_setSd_self (s : Store) (i : Nat) (d : Int) (f : EnvData)
    (h : s[i]? = some f) :
    (setSd s i d)[i]? = some { f with searchDepth := d } := by
  unfold setSd
  rw [h]
  simp [List.getElem?_set_eq_of_lt _ (lt_of_getElem?_some h)]

theorem getElem?_setSd_ne (s : Store) (i : Nat) (d : Int) (j : Nat)
    (h : j ≠ i) : (setSd s i d)[j]? = s[j]? := by
  unfold setSd
  cases hs : s[i]? with
  | none => rfl
  | some f => exact List.getElem?_set_ne (fun he => h he.symm)

theorem sdAt_setSd_self (s : Store) (i : Nat) (d : Int)
    (h : i < s.length) : sdAt (setSd s i d) i = some d := by
  have hf : s[i]? = some s[i] := List.getElem?_eq_getElem h
  rw [sdAt, getElem?_setSd_self s i d _ hf]
  rfl

theorem setSd_eq_of_some {s : Store} {i : Nat} {f : EnvData} (d : Int)
    (h : s[i]? = some f) :
    setSd s i d = s.set i { f with searchDepth := d } := by
  unfold setSd
  rw [h]

theorem setSd_setSd (s : Store) (i : Nat) (a b : Int) :
    setSd (setSd s i a) i b = setSd s i b := by
  cases h : s[i]? with
  | none =>
      have h1 : setSd s i a = s := by unfold setSd; rw [h]
      rw [h1]
  | some f =>
      rw [setSd_eq_of_some b (getElem?_setSd_self s i a f h),
          setSd_eq_of_some a h, List.set_set, setSd_eq_of_some b h]

theorem walkView_setSd (s : Store) (i : Nat) (d : Int) (j : Nat) :
    walkView (setSd s i d) j = walkView s j := by
  by_cases hij : j = i
  · subst hij
    cases h : s[j]? with
    | none =>
        have h1 : setSd s j d = s := by unfold setSd; rw [h]
        rw [walkView, walkView, h1]
    | some f =>
        rw [walkView, walkView, getElem?_setSd_self s j d f h, h]
        rfl
  · rw [walkView, walkView, getElem?_setSd_ne s i d j hij]

theorem getItemLoop_congr (s s₂ : Store) (n : String)
    (h : ∀ j, walkView s₂ j = walkView s j) :
    ∀ (k : Nat) (ref : Option Nat), getItemLoop s₂ k ref n = getItemLoop s k ref n := by
  intro k
  induction k with
  | zero => intro ref; rfl
  | succ k ih =>
      intro ref
      cases ref with
      | none => rfl
      | some i =>
          have hj := h i
          cases hs : s[i]? with
          | none =>
              have hs2 : s₂[i]? = none := by
                rw [walkView, walkView, hs] at hj
                simpa using hj
              simp [getItemLoop, hs, hs2]
          | some f =>
              cases hs2 : s₂[i]? with
              | none =>
                  rw [walkView, walkView, hs, hs2] at hj
                  simp at hj
              | some f₂ =>
                  rw [walkView, walkView, hs, hs2] at hj
                  simp only [Option.map_some', Option.some.injEq,
                    Prod.mk.injEq] at hj
                  obtain ⟨hb, hp, _⟩ := hj
                  simp only [getItemLoop, hs, hs2, hb, hp]
                  cases lookupB f.bindings n with
                  | some v => rfl
                  | none => exact ih f.parent

theorem getItemLoop_chain (s : Store) (n : String) :
    ∀ (k : Nat) (ref : Option Nat), chainOkAux s k ref = true →
      getItemLoop s k ref n =
        (match firstBinding s (ancestorsAux s k ref) n with
         | some v => Except.ok v
         | none => Except.error (Err.keyError n)) := by
  intro k
  induction k with
  | zero => intro ref _; rfl
  | succ k ih =>
      intro ref h
      cases ref with
      | none => simp [chainOkAux] at h
      | some i =>
          cases hs : s[i]? with
          | none => simp [chainOkAux, hs] at h
          | some f =>
              have h2 : chainOkAux s k f.parent = true := by
                simp [chainOkAux, hs] at h
                exact h.2
              simp only [getItemLoop, ancestorsAux, firstBinding, hs]
              cases hlk : lookupB f.bindings n with
              | some v => rfl
              | none => exact ih f.parent h2

theorem getItemLoop_ext (s s₂ : Store) (n : String)
    (h : ∀ (j : Nat) (f : EnvData), s[j]? = some f → s₂[j]? = some f) :
    ∀ (k : Nat) (ref : Option Nat), chainOkAux s k ref = true →
      getItemLoop s₂ k ref n = getItemLoop s k ref n := by
  intro k
  induction k with
  | zero => intro ref _; rfl
  | succ k ih =>
      intro ref hok
      cases ref with
      | none => simp [chainOkAux] at hok
      | some i =>
          cases hs : s[i]? with
          | none => simp [chainOkAux, hs] at hok
          | some f =>
              have h2 : chainOkAux s k f.parent = true := by
                simp [chainOkAux, hs] at hok
                exact hok.2
              have hs2 : s₂[i]? = some f := h i f hs
              simp only [getItemLoop, hs, hs2]
              cases lookupB f.bindings n with
              | some v => rfl
              | none => exact ih f.parent h2

theorem getItemLoop_ext2 (s s₂ : Store) (m : String)
    (h : ∀ (j : Nat) (f : EnvData), s[j]? = some f → s₂[j]? = some f) :
    ∀ (kc : Nat) (ref : Option Nat), chainOkAux s kc ref = true →
      ∀ k : Nat, getItemLoop s₂ k ref m = getItemLoop s k ref m := by
  intro kc
  induction kc with
  | zero =>
      intro ref hok k
      cases ref with
      | none => cases k <;> rfl
      | some i => simp [chainOkAux] at hok
  | succ kc ih =>
      intro ref hok k
      cases ref with
      | none => simp [chainOkAux] at hok
      | some i =>
          cases hs : s[i]? with
          | none => simp [chainOkAux, hs] at hok
          | some f =>
              have h2 : chainOkAux s kc f.parent = true := by
                simp [chainOkAux, hs] at hok
                exact hok.2
              have hs2 : s₂[i]? = some f := h i f hs
              cases k with
              | zero => rfl
              | succ k =>
                  simp only [getItemLoop, hs, hs2]
                  cases lookupB f.bindings m with
                  | some v => rfl
                  | none => exact ih f.parent h2 k

theorem lookupB_setB_self (bs : List (String × Amalgam)) (n : String) (v : Amalgam) :
    lookupB (setB bs n v) n = some v := by
  induction bs with
  | nil => simp [setB, lookupB]
  | cons kv rest ih =>
      cases kv with
      | mk k1 v1 =>
          by_cases hk : k1 = n
          · simp only [setB, lookupB, if_pos hk]
          · simp only [setB, lookupB, if_neg hk, ih]

theorem lookupB_setB_ne (bs : List (String × Amalgam)) (n : String) (v : Amalgam)
    (m : String) (h : m ≠ n) :
    lookupB (setB bs n v) m = lookupB bs m := by
  have hnm : ¬ n = m := fun he => h he.symm
  induction bs with
  | nil => simp only [setB, lookupB, if_neg hnm]
  | cons kv rest ih =>
      cases kv with
      | mk k1 v1 =>
          by_cases hk : k1 = n
          · have hkm : ¬ k1 = m := by rw [hk]; exact hnm
            simp only [setB, lookupB, if_pos hk, if_neg hkm]
          · by_cases hm : k1 = m
            · simp only [setB, lookupB, if_neg hk, if_pos hm]
            · simp only [setB, lookupB, if_neg hk, if_neg hm, ih]

theorem getElem?_updateBinding_ne (s : Store) (j : Nat) (n : String) (v : Amalgam)
    (i : Nat) (h : i ≠ j) : (updateBinding s j n v)[i]? = s[i]? := by
  unfold updateBinding
  cases hs : s[j]? with
  | none => rfl
  | some f => exact List.getElem?_set_ne (fun he => h he.symm)

theorem bindingsAt_updateBinding_self (s : Store) (j : Nat) (n : String)
    (v : Amalgam) (f : EnvData) (hf : s[j]? = some f) :
    bindingsAt (updateBinding s j n v) j = some (setB f.bindings n v) := by
  unfold updateBinding bindingsAt
  rw [hf]
  simp [List.getElem?_set_eq_of_lt _ (lt_of_getElem?_some hf)]

theorem setItemLoop_chain (s : Store) (n : String) (v : Amalgam) :
    ∀ (k : Nat) (i : Nat), chainOkAux s (k + 1) (some i) = true →
      ∀ j, firstBindingRef s (ancestorsAux s (k + 1) (some i)) n = some j →
        setItemLoop s k (some i) n v = .ok (updateBinding s j n v) := by
  intro k
  induction k with
  | zero =>
      intro i h j hj
      cases hs : s[i]? with
      | none => simp [chainOkAux, hs] at h
      | some f =>
          simp only [ancestorsAux, hs, firstBindingRef] at hj
          by_cases hc : containsB f.bindings n
          · simp only [hc, if_true] at hj
            cases hj
            simp [setItemLoop, hs]
          · simp [hc, firstBindingRef] at hj
  | succ k ih =>
      intro i h j hj
      cases hs : s[i]? with
      | none => simp [chainOkAux, hs] at h
      | some f =>
          have h2 : chainOkAux s (k + 1) f.parent = true := by
            simp [chainOkAux, hs] at h
            exact h.2
          cases hp : f.parent with
          | none => rw [hp] at h2; simp [chainOkAux] at h2
          | some i₂ =>
              rw [hp] at h2
              by_cases hc : containsB f.bindings n
              · simp only [ancestorsAux, hs, firstBindingRef, hc, if_true] at hj
                cases hj
                simp [setItemLoop, hs, hc]
              · simp only [ancestorsAux, hs, firstBindingRef, hc, if_false] at hj
                rw [hp] at hj
                simp only [setItemLoop, hs, hc, if_false, hp]
                exact ih i₂ h2 j hj

/-- Common computation for the symbol-evaluation theorem: under a
consistent chain, the `search_at(-1)` lookup of `Symbol.evaluate` resolves
to the first binding along the full ancestor chain. -/
theorem getItem_full_depth (s : Store) (ρ : Nat) (n : String) (f : EnvData)
    (hf : s[ρ]? = some f)
    (hchain : chainOkAux s (f.level + 1) (some ρ) = true) :
    getItem (setSd s ρ (-1)) ρ n =
      (match firstBinding s (ancestors s ρ) n with
       | some v => Except.ok v
       | none => Except.error (Err.keyError n)) := by
  have hs1 : (setSd s ρ (-1))[ρ]? = some { f with searchDepth := (-1 : Int) } :=
    getElem?_setSd_self s ρ (-1) f hf
  unfold getItem
  rw [hs1]
  simp only [show ¬((0 : Int) ≤ -1) by omega, if_false]
  rw [getItemLoop_congr s (setSd s ρ (-1)) n (walkView_setSd s ρ (-1))
        (f.level + 1) (some ρ),
      getItemLoop_chain s n (f.level + 1) (some ρ) hchain]
  unfold ancestors
  rw [hf]

/-- C9: `Environment.search_at`.  (a) A depth greater than the frame's
level raises the configuration `ValueError` — an `Err.valueError`, never a
user-facing `Err.failure`/`Err.failureStack` — before any state is
changed: the store comes back exactly as it went in.  (b) For any
permitted depth, on every exit path that carries a store (a returned
value, or an exception propagated out of the body), the frame's
`search_depth` is `0` again, thanks to the `finally` clause; the
hypothesis `hmono` states that the body never shrinks the store, which
holds for every evaluation step (the evaluator only appends frames). -/
theorem C9_search_at_restores (ρ : Nat) (depth : Int) (s : Store)
    (f : EnvData) (body : Store → Res) (hf : s[ρ]? = some f)
    (hmono : ∀ s₁ s₂ : Store, resStore (body s₁) = some s₂ →
      s₁.length ≤ s₂.length) :
    ((f.level : Int) < depth →
       searchAtRun ρ depth s body = .err (.valueError depthErrMsg) s) ∧
    (¬ (f.level : Int) < depth →
       ∀ s₂, resStore (searchAtRun ρ depth s body) = some s₂ →
         sdAt s₂ ρ = some 0) := by
  have hρlt : ρ < s.length := lt_of_getElem?_some hf
  constructor
  · intro hgt
    simp only [searchAtRun, hf]
    rw [if_pos hgt]
  · intro hle s₂ h2
    simp only [searchAtRun, hf] at h2
    rw [if_neg hle] at h2
    have hlen : (setSd s ρ depth).length = s.length := length_setSd s ρ depth
    cases hb : body (setSd s ρ depth) with
    | ok v s₃ =>
        rw [hb] at h2
        have hs₃ : s.length ≤ s₃.length := by
          have := hmono (setSd s ρ depth) s₃ (by rw [hb]; rfl)
          omega
        simp only [resStore, Option.some.injEq] at h2
        rw [← h2]
        exact sdAt_setSd_self s₃ ρ 0 (Nat.lt_of_lt_of_le hρlt hs₃)
    | err e s₃ =>
        rw [hb] at h2
        have hs₃ : s.length ≤ s₃.length := by
          have := hmono (setSd s ρ depth) s₃ (by rw [hb]; rfl)
          omega
        simp only [resStore, Option.some.injEq] at h2
        rw [← h2]
        exact sdAt_setSd_self s₃ ρ 0 (Nat.lt_of_lt_of_le hρlt hs₃)
    | timeout =>
        rw [hb] at h2
        simp [resStore] at h2

/-- C8: scoping of `Environment.__setitem__`.  (a) With the default
`search_depth = 0` on a freshly pushed child, the binding lands only in
the child's own frame: every other frame is untouched and every lookup
from the parent is unchanged, so the binding is invisible from the parent.
(b) With `search_depth = -1` and the name bound somewhere in the chain,
the write mutates the first frame binding the name, in place: no shadowing
copy appears anywhere, every other frame is untouched, and within the
mutated frame every other binding is unchanged. -/
theorem C8_scoped_writes (s : Store) (ρp : Nat) (fp : EnvData)
    (nm n : String) (v : Amalgam)
    (hp : s[ρp]? = some fp) (hok : chainOk s ρp = true) :
    (∀ (s₁ : Store) (ρc : Nat), envPush s ρp [] nm = .ok (ρc, s₁) →
       setItem s₁ ρc n v = .ok (updateBinding s₁ ρc n v) ∧
       bindingsAt (updateBinding s₁ ρc n v) ρc = some [(n, v)] ∧
       (∀ j : Nat, j ≠ ρc → (updateBinding s₁ ρc n v)[j]? = s₁[j]?) ∧
       (∀ j : Nat, j < s.length → s₁[j]? = s[j]?) ∧
       (∀ m : String, getItem (updateBinding s₁ ρc n v) ρp m = getItem s ρp m)) ∧
    (∀ j : Nat, fp.searchDepth = -1 →
       firstBindingRef s (ancestors s ρp) n = some j →
       setItem s ρp n v = .ok (updateBinding s j n v) ∧
       (∀ i : Nat, i ≠ j → (updateBinding s j n v)[i]? = s[i]?) ∧
       (∀ fj : EnvData, s[j]? = some fj →
          bindingsAt (updateBinding s j n v) j = some (setB fj.bindings n v) ∧
          lookupB (setB fj.bindings n v) n = some v ∧
          (∀ m : String, m ≠ n →
             lookupB (setB fj.bindings n v) m = lookupB fj.bindings m))) := by
  have hchain : chainOkAux s (fp.level + 1) (some ρp) = true := by
    unfold chainOk at hok
    rw [hp] at hok
    exact hok
  have hρlt : ρp < s.length := lt_of_getElem?_some hp
  constructor
  · intro s₁ ρc hpush
    unfold envPush at hpush
    rw [hp] at hpush
    injection hpush with hpair
    have hρc : ρc = s.length := (congrArg Prod.fst hpair).symm
    have hs₁ : s₁ = s ++ [⟨[], some ρp, fp.level + 1, 0, nm⟩] :=
      (congrArg Prod.snd hpair).symm
    subst hρc
    subst hs₁
    have hchild : (s ++ [(⟨[], some ρp, fp.level + 1, 0, nm⟩ : EnvData)])[s.length]?
        = some ⟨[], some ρp, fp.level + 1, 0, nm⟩ := by
      rw [List.getElem?_append_right (Nat.le_refl _)]
      simp
    have hleft : ∀ j : Nat, j < s.length →
        (s ++ [(⟨[], some ρp, fp.level + 1, 0, nm⟩ : EnvData)])[j]? = s[j]? :=
      fun j hj => by rw [List.getElem?_append, if_pos hj]
    refine ⟨?_, ?_, ?_, hleft, ?_⟩
    · unfold setItem
      rw [hchild]
      simp only [setItemLoop, hchild, show ((0 : Int) ≤ 0) = True by simp,
        if_true, Int.toNat_zero]
    · rw [bindingsAt_updateBinding_self _ _ _ _ _ hchild]
      rfl
    · intro j hj
      exact getElem?_updateBinding_ne _ _ _ _ _ hj
    · intro m
      have hext : ∀ (j : Nat) (f : EnvData), s[j]? = some f →
          (updateBinding (s ++ [(⟨[], some ρp, fp.level + 1, 0, nm⟩ : EnvData)])
            s.length n v)[j]? = some f := by
        intro j f hjf
        have hjlt : j < s.length := lt_of_getElem?_some hjf
        rw [getElem?_updateBinding_ne _ _ _ _ _ (Nat.ne_of_lt hjlt),
          hleft j hjlt]
        exact hjf
      have hfp2 : (updateBinding (s ++ [(⟨[], some ρp, fp.level + 1, 0, nm⟩ : EnvData)])
          s.length n v)[ρp]? = some fp := hext ρp fp hp
      unfold getItem
      rw [hfp2, hp]
      exact getItemLoop_ext2 s _ m hext (fp.level + 1) (some ρp) hchain _
  · intro j hsd hj
    have hj2 : firstBindingRef s (ancestorsAux s (fp.level + 1) (some ρp)) n
        = some j := by
      unfold ancestors at hj
      rw [hp] at hj
      exact hj
    refine ⟨?_, ?_, ?_⟩
    · unfold setItem
      rw [hp]
      show setItemLoop s
        (if 0 ≤ fp.searchDepth then fp.searchDepth.toNat else fp.level)
        (some ρp) n v = _
      rw [hsd, if_neg (by omega : ¬((0 : Int) ≤ -1))]
      exact setItemLoop_chain s n v fp.level ρp hchain j hj2
    · intro i hi
      exact getElem?_updateBinding_ne _ _ _ _ _ hi
    · intro fj hfj
      exact ⟨bindingsAt_updateBinding_self _ _ _ _ _ hfj,
        lookupB_setB_self _ _ _,
        fun m hm => lookupB_setB_ne _ _ _ _ hm⟩

/-- C7: `Symbol(n).evaluate(env)` searches the full environment chain up
to the root (the `search_at(depth=-1)` block makes the walk `level + 1`
frames long) and returns the nearest binding when `n` is bound anywhere in
the chain; when `n` is unbound in the whole chain the result is a fatal
failure whose first (and only) innermost trace entry is
`(Symbol node, env, "unbound symbol")`.  The only state change is the
starting frame's `search_depth`, restored to `0`. -/
theorem C7_symbol_full_chain_lookup (s : Store) (ρ : Nat) (n : String)
    (hok : chainOk s ρ = true) :
    (∀ v, firstBinding s (ancestors s ρ) n = some v →
       ∀ fuel : Nat, eval (fuel + 1) (.symbol n) ρ s = .ok v (setSd s ρ 0)) ∧
    (firstBinding s (ancestors s ρ) n = none →
       ∀ fuel : Nat, eval (fuel + 1) (.symbol n) ρ s =
         .err (.failureStack [⟨.symbol n, ρ, "unbound symbol"⟩]) (setSd s ρ 0)) := by
  have hf : ∃ f, s[ρ]? = some f := by
    unfold chainOk at hok
    cases h : s[ρ]? with
    | none => rw [h] at hok; cases hok
    | some f => exact ⟨f, rfl⟩
  obtain ⟨f, hf⟩ := hf
  have hchain : chainOkAux s (f.level + 1) (some ρ) = true := by
    unfold chainOk at hok
    rw [hf] at hok
    exact hok
  have hgi := getItem_full_depth s ρ n f hf hchain
  have hnl : ¬((f.level : Int) < -1) := by omega
  constructor
  · intro v hv fuel
    rw [hv] at hgi
    show eval (fuel + 1) (.symbol n) ρ s = _
    simp only [eval, evalCoreF, searchAtRun, hf, hnl, if_false, hgi,
      setSd_setSd]
  · intro hv fuel
    rw [hv] at hgi
    show eval (fuel + 1) (.symbol n) ρ s = _
    simp only [eval, evalCoreF, searchAtRun, hf, hnl, if_false, hgi,
      setSd_setSd]

/-! ## Claim theorems -/

/-- C1: the loop/break/return contract, evaluated on the spec's own
programs.  The parts the code satisfies: `(loop (return 42))` yields
`Numeric(42)`, `(loop (break) (setn x 42))` yields `Atom("NIL")` without
ever evaluating the `setn` (the final store is the seeded store itself,
with no `x` bound), and a fatal failure inside a loop body is
re-propagated with exactly one additional "inherited" trace entry.  The
part the code breaks: the spec's counter program — increment `x` until
`10`, then `(return 42)` — never gets that far, because `_setn`
(`primordials/meta.py`) executes `isinstance(value, am.Notification)` and
`amalgam.amalgams` defines no `Notification` class, so the very first
`(setn x (+ x 1))` raises a host `AttributeError`; the loop neither yields
`Numeric(42)` nor leaves the counter at `10` (the final store still holds
`x = 0`, with the `in_context` toggles stuck on).  The repository's own
`test_loop_return` expects `Numeric(42)` with `x = 10`, so this is a
defect of the code, not of the claim. -/
theorem C1_loop_escape_contract :
    (eval 30 (.sexpression [.symbol "loop",
       .sexpression [.symbol "return", .numeric 42]]) 0 rootStore =
       .ok (.numeric 42) rootStore) ∧
    (eval 30 loopBreakProg 0 rootStore = .ok (.atom "NIL") rootStore) ∧
    (eval 30 loopFatalProg 0 rootStore =
       .err (.failureStack [⟨.symbol "y", 0, "unbound symbol"⟩,
         ⟨loopFatalProg, 0, "inherited"⟩]) stuckStore) ∧
    (eval 200 loopReturnProg 0 counterStore =
       .err (.hostError notifMissingMsg)
         (setFnFlags counterStore [(0, "break"), (0, "return")] true)) :=
  ⟨rfl, rfl, rfl, rfl⟩

/-- C2, counterexample: after the call of `loop` on a body whose
evaluation raises a fatal failure, the `in_context` flags of `break` and
`return` are still `true` — not `false` as the claim states for every
exit path — because `make_function`'s wrapper performs its reset only
after a normal return (`utils.py` has no `try`/`finally`). -/
theorem C2_counterexample :
    eval 30 loopFatalProg 0 rootStore =
      .err (.failureStack [⟨.symbol "y", 0, "unbound symbol"⟩,
        ⟨loopFatalProg, 0, "inherited"⟩]) stuckStore ∧
    inContextOf stuckStore 0 "break" = some true ∧
    inContextOf stuckStore 0 "return" = some true :=
  ⟨rfl, rfl, rfl⟩

/-- C2, as amended: `make_function`'s wrapper sets the `in_context` flag
of every allowed sibling to `true` before the underlying callable runs and
resets it to `false` when the callable returns normally; when an exception
(such as a fatal failure) propagates out of the callable, the reset is
skipped and the flags are left as the callable last saw them.  Stated
generally over the wrapper, plus the concrete normal-exit run: after
`(loop (break) ...)` returns, the final store is the seeded store itself,
in which both flags are `false` again. -/
theorem C2_in_context_toggling :
    (∀ (ev : Amalgam → Nat → Store → Res) (lf : Nat) (allows : List String)
       (p : Prim) (args : List Amalgam) (ρ : Nat) (s : Store) (f : EnvData)
       (locs : List (Nat × String)),
       s[ρ]? = some f →
       collectAllows (setSd s ρ (-1)) ρ allows = .ok locs →
       (∀ (v : Amalgam) (s₄ : Store),
          runPrimF ev lf p args ρ
              (setFnFlags (setSd (setSd s ρ (-1)) ρ 0) locs true) = .ok v s₄ →
          wrapRunF ev lf allows p args ρ s = .ok v (setFnFlags s₄ locs false)) ∧
       (∀ (e : Err) (s₄ : Store),
          runPrimF ev lf p args ρ
              (setFnFlags (setSd (setSd s ρ (-1)) ρ 0) locs true) = .err e s₄ →
          wrapRunF ev lf allows p args ρ s = .err e s₄)) ∧
    (eval 30 loopBreakProg 0 rootStore = .ok (.atom "NIL") rootStore ∧
     inContextOf rootStore 0 "break" = some false ∧
     inContextOf rootStore 0 "return" = some false) := by
  refine ⟨?_, rfl, rfl, rfl⟩
  intro ev lf allows p args ρ s f locs hf hcol
  constructor
  · intro v s₄ hrun
    simp only [wrapRunF, hf, hcol, hrun]
  · intro e s₄ hrun
    simp only [wrapRunF, hf, hcol, hrun]

/-- C2 witness: the wrapper theorem applied at the `loop` registration on
the seeded store, with a primitive run that returns normally. -/
theorem C2_in_context_toggling_witness :
    wrapRunF (eval 3) 3 ["break", "return"] .breakP [] 0 rootStore =
      .ok (.vector [.atom "payload", .atom "NIL"])
        (setFnFlags stuckStore [(0, "break"), (0, "return")] false) :=
  (C2_in_context_toggling.1 (eval 3) 3 ["break", "return"] .breakP [] 0
      rootStore ⟨rootBindings, none, 0, 0, "global"⟩
      [(0, "break"), (0, "return")] rfl rfl).1
    (.vector [.atom "payload", .atom "NIL"]) stuckStore rfl

/-- C3: a `let` whose bindings vector contains an entry that is not a
2-element pair does NOT yield the fatal Notification with trace entry
`(pair, env, "not a pair")` that the claim (and the repository's own
`test_let_fails`) requires: `_let` executes `am.Notification()` at the
point of detection, and `amalgam.amalgams` defines no `Notification`
class, so the host raises an unchecked `AttributeError` that exposes the
internal representation.  The second conjunct records that this host
error is not the required fatal failure. -/
theorem C3_let_not_a_pair :
    eval 50 letBadProg 0 rootStore =
      .err (.hostError notifMissingMsg) rootStore ∧
    (Err.hostError notifMissingMsg ≠
      Err.failureStack [⟨.vector [.symbol "x"], 0, "not a pair"⟩]) :=
  ⟨rfl, fun h => Err.noConfusion h⟩

/-- C4, counterexample: a direct `Function.call` of the eager `+` with an
unbound first argument re-raises the argument's failure completely
unchanged — the trace is exactly the one `unbound symbol` entry, so no
`(self-as-atom-or-name, env, "inherited")` entry is appended by the call,
contradicting the claim.  The final conjunct makes the absence of an
"inherited" entry explicit. -/
theorem C4_counterexample :
    callFnF (eval 3) 3 plusFnVal [.symbol "q", .numeric 1] 0 rootStore =
      .err (.failureStack [⟨.symbol "q", 0, "unbound symbol"⟩]) rootStore ∧
    ([⟨.symbol "q", 0, "unbound symbol"⟩] : List FailEntry).all
      (fun en => en.message != "inherited") = true :=
  ⟨rfl, rfl⟩

/-- C4, as amended: for a call of a non-defer `Function`, the arguments
are evaluated in order against the (possibly replaced) environment, and on
the first argument whose evaluation raises a fatal failure the call
re-raises that failure immediately and unchanged — no later argument is
evaluated and the underlying callable is not invoked, but `Function.call`
itself appends no trace entry; the single "inherited" entry is appended by
the enclosing `SExpression`'s decorated `evaluate`, naming the
S-expression node and the caller's environment.  The second and third
conjuncts quantify over the later argument to show it is never consulted. -/
theorem C4_call_argument_short_circuit :
    (∀ (ev : Amalgam → Nat → Store → Res) (lf : Nat) (fv : FunctionVal)
       (args : List Amalgam) (ρ : Nat) (s : Store) (e : Err) (s₁ : Store),
       fv.defer = false → (fv.contextual = false ∨ fv.inContext = true) →
       evalSeqF ev args (fv.envRef.getD ρ) s = .errL e s₁ →
       callFnF ev lf fv args ρ s = .err e s₁) ∧
    (∀ (e₂ : Amalgam) (lf fuel : Nat),
       callFnF (eval (fuel + 2)) lf plusFnVal [.symbol "q", e₂] 0 rootStore =
         .err (.failureStack [⟨.symbol "q", 0, "unbound symbol"⟩]) rootStore) ∧
    (∀ (e₂ : Amalgam) (fuel : Nat),
       eval (fuel + 3) (.sexpression [.symbol "+", .symbol "q", e₂]) 0 rootStore =
         .err (.failureStack [⟨.symbol "q", 0, "unbound symbol"⟩,
           ⟨.sexpression [.symbol "+", .symbol "q", e₂], 0, "inherited"⟩])
           rootStore) := by
  refine ⟨?_, ?_, ?_⟩
  · intro ev lf fv args ρ s e s₁ hd hctx hseq
    have hcond : (fv.contextual && !fv.inContext) = false := by
      cases hctx with
      | inl h => simp [h]
      | inr h => simp [h]
    simp only [callFnF, hcond, Bool.false_eq_true, if_false, hd, hseq]
  · intro e₂ lf fuel
    rfl
  · intro e₂ fuel
    rfl

/-- C4 witness: the general short-circuit statement applied to `+` with a
single unbound argument on the seeded store. -/
theorem C4_call_argument_short_circuit_witness :
    callFnF (eval 3) 3 plusFnVal [.symbol "q"] 0 rootStore =
      .err (.failureStack [⟨.symbol "q", 0, "unbound symbol"⟩]) rootStore :=
  C4_call_argument_short_circuit.1 (eval 3) 3 plusFnVal [.symbol "q"] 0
    rootStore (.failureStack [⟨.symbol "q", 0, "unbound symbol"⟩]) rootStore
    rfl (Or.inl rfl) rfl

/-- C5, counterexample: calling (through an S-expression) a contextual
`Function` that is out of context but carries a captured environment
(frame `1`) produces the failure entry
`(head expression, captured environment 1, "invalid context")` — not
`(self, caller-supplied environment 0, ...)` as the claim states: the
captured environment replaces the caller's env *before* the
invalid-context check (`Function.call` lines 397-401), and
`SExpression.evaluate` rebuilds the failure on the unevaluated head
node, not the `Function` object.  The final conjunct records that the
environment in the entry differs from the caller's. -/
theorem C5_counterexample :
    eval 4 (.sexpression [.symbol "f"]) 0 twoFrameStore =
      .err (.failureStack [⟨.symbol "f", 1, "invalid context"⟩,
        ⟨.sexpression [.symbol "f"], 0, "inherited"⟩]) twoFrameStore ∧
    (1 : Nat) ≠ 0 :=
  ⟨rfl, by decide⟩

/-- C5, as amended: calling a `Function` whose `contextual` is true while
`in_context` is false raises `InvalidContextError` carrying the
environment *after* the captured environment (when bound) has replaced the
caller's env, before any argument is evaluated and without invoking the
underlying callable; an enclosing `SExpression` converts it into a fatal
failure whose generated entry is `(the unevaluated head expression, that
replaced environment, "invalid context")`, plus its own "inherited"
entry. -/
theorem C5_invalid_context :
    (∀ (ev : Amalgam → Nat → Store → Res) (lf : Nat) (fv : FunctionVal)
       (args : List Amalgam) (ρ : Nat) (s : Store),
       fv.contextual = true → fv.inContext = false →
       callFnF ev lf fv args ρ s =
         .err (.invalidContext (fv.envRef.getD ρ)) s) ∧
    (∀ fuel : Nat,
       eval (fuel + 2) (.sexpression [.symbol "f"]) 0 twoFrameStore =
         .err (.failureStack [⟨.symbol "f", 1, "invalid context"⟩,
           ⟨.sexpression [.symbol "f"], 0, "inherited"⟩]) twoFrameStore) := by
  constructor
  · intro ev lf fv args ρ s hc hi
    simp only [callFnF, hc, hi, Bool.not_false, Bool.and_true, if_true]
  · intro fuel
    rfl

/-- C5 witness: the general invalid-context statement applied to the
bound contextual function of `twoFrameStore`. -/
theorem C5_invalid_context_witness :
    callFnF (eval 3) 3 ctxFnVal [] 0 twoFrameStore =
      .err (.invalidContext 1) twoFrameStore :=
  C5_invalid_context.1 (eval 3) 3 ctxFnVal [] 0 twoFrameStore rfl rfl

/-- C6: `Vector.evaluate` evaluates its items left to right; the first
conjunct shows that on a fatal item failure the decorated `evaluate`
appends exactly one trace entry `(the Vector node, env, "inherited")` and
returns the same failure with the failure's store; the second shows the
items after a failing one are never evaluated (they are universally
quantified and absent from the result). -/
theorem C6_vector_short_circuit :
    (∀ (fuel : Nat) (vals : List Amalgam) (ρ : Nat) (s : Store)
       (t : List FailEntry) (s₁ : Store),
       evalSeqF (eval fuel) vals ρ s = .errL (.failureStack t) s₁ →
       eval (fuel + 1) (.vector vals) ρ s =
         .err (.failureStack (t ++ [⟨.vector vals, ρ, "inherited"⟩])) s₁) ∧
    (∀ (ev : Amalgam → Nat → Store → Res) (e : Amalgam)
       (rest : List Amalgam) (ρ : Nat) (s : Store) (er : Err) (s₁ : Store),
       ev e ρ s = .err er s₁ →
       evalSeqF ev (e :: rest) ρ s = .errL er s₁) := by
  constructor
  · intro fuel vals ρ s t s₁ h
    simp only [eval, evalCoreF, h]
  · intro ev e rest ρ s er s₁ h
    simp only [evalSeqF, h]

/-- C6 witness: the vector `[q, 1]` with `q` unbound, on the seeded
store: one "inherited" entry is appended to the unbound-symbol failure. -/
theorem C6_vector_short_circuit_witness :
    eval 4 (.vector [.symbol "q", .numeric 1]) 0 rootStore =
      .err (.failureStack ([⟨.symbol "q", 0, "unbound symbol"⟩] ++
        [⟨.vector [.symbol "q", .numeric 1], 0, "inherited"⟩])) rootStore :=
  C6_vector_short_circuit.1 3 [.symbol "q", .numeric 1] 0 rootStore
    [⟨.symbol "q", 0, "unbound symbol"⟩] rootStore rfl

/-- C7 witness: the full-chain lookup theorem applied on a concrete
two-frame chain — a root binding `a` and an empty child — at a bound and
at an unbound name. -/
theorem C7_symbol_full_chain_lookup_witness :
    eval 1 (.symbol "a") 1
        [⟨[("a", .numeric 5)], none, 0, 0, "g"⟩, ⟨[], some 0, 1, 0, "c"⟩] =
      .ok (.numeric 5)
        (setSd [⟨[("a", .numeric 5)], none, 0, 0, "g"⟩,
          ⟨[], some 0, 1, 0, "c"⟩] 1 0) ∧
    eval 1 (.symbol "b") 1
        [⟨[("a", .numeric 5)], none, 0, 0, "g"⟩, ⟨[], some 0, 1, 0, "c"⟩] =
      .err (.failureStack [⟨.symbol "b", 1, "unbound symbol"⟩])
        (setSd [⟨[("a", .numeric 5)], none, 0, 0, "g"⟩,
          ⟨[], some 0, 1, 0, "c"⟩] 1 0) :=
  ⟨(C7_symbol_full_chain_lookup
      [⟨[("a", .numeric 5)], none, 0, 0, "g"⟩, ⟨[], some 0, 1, 0, "c"⟩]
      1 "a" rfl).1 (.numeric 5) rfl 0,
   (C7_symbol_full_chain_lookup
      [⟨[("a", .numeric 5)], none, 0, 0, "g"⟩, ⟨[], some 0, 1, 0, "c"⟩]
      1 "b" rfl).2 rfl 0⟩

/-- C8 witness: the scoped-write theorem applied on a concrete two-frame
chain whose child has `search_depth = -1`; part (a) pushes a fresh
grandchild and sets locally, part (b) overwrites the root's binding of
`n` through the unbounded search. -/
theorem C8_scoped_writes_witness :
    (setItem
        ([⟨[("n", .numeric 1), ("m", .numeric 2)], none, 0, 0, "g"⟩,
          ⟨[], some 0, 1, -1, "c"⟩] ++ [⟨[], some 1, 2, 0, "k"⟩]) 2 "n"
        (.numeric 9) =
      .ok (updateBinding
        ([⟨[("n", .numeric 1), ("m", .numeric 2)], none, 0, 0, "g"⟩,
          ⟨[], some 0, 1, -1, "c"⟩] ++ [⟨[], some 1, 2, 0, "k"⟩]) 2 "n"
        (.numeric 9))) ∧
    (setItem
        [⟨[("n", .numeric 1), ("m", .numeric 2)], none, 0, 0, "g"⟩,
         ⟨[], some 0, 1, -1, "c"⟩] 1 "n" (.numeric 9) =
      .ok (updateBinding
        [⟨[("n", .numeric 1), ("m", .numeric 2)], none, 0, 0, "g"⟩,
         ⟨[], some 0, 1, -1, "c"⟩] 0 "n" (.numeric 9))) :=
  by
  have h := C8_scoped_writes
    [(⟨[("n", .numeric 1), ("m", .numeric 2)], none, 0, 0, "g"⟩ : EnvData),
     ⟨[], some 0, 1, -1, "c"⟩] 1 ⟨[], some 0, 1, -1, "c"⟩ "k" "n"
    (.numeric 9) rfl rfl
  exact ⟨(h.1 _ 2 rfl).1, (h.2 0 rfl rfl).1⟩

/-- C9 witness: the `search_at` theorem applied on the seeded root store
with an identity body, at the permitted depth `-1` (the frame's
`search_depth` is `0` again afterwards) and, for the guard, at the
excessive depth `42`. -/
theorem C9_search_at_restores_witness :
    sdAt rootStore 0 = some 0 ∧
    searchAtRun 0 42 rootStore (fun s₁ => .ok (.atom "NIL") s₁) =
      .err (.valueError depthErrMsg) rootStore :=
  by
  have hmono : ∀ s₁ s₂ : Store,
      resStore ((fun st : Store => Res.ok (.atom "NIL") st) s₁) = some s₂ →
      s₁.length ≤ s₂.length := by
    intro s₁ s₂ h
    simp only [resStore, Option.some.injEq] at h
    exact h ▸ Nat.le_refl _
  have h1 := C9_search_at_restores 0 (-1) rootStore
    ⟨rootBindings, none, 0, 0, "global"⟩
    (fun st : Store => Res.ok (.atom "NIL") st) rfl hmono
  have h2 := C9_search_at_restores 0 42 rootStore
    ⟨rootBindings, none, 0, 0, "global"⟩
    (fun st : Store => Res.ok (.atom "NIL") st) rfl hmono
  refine ⟨h1.2 (by decide) rootStore ?_, h2.1 (by decide)⟩
  rfl

/-- C10: `_loop` does not distinguish the escapes of `break`/`return`
from ordinary data — it reads `result.mapping["payload"]` and returns the
payload of any result whose mapping view holds that key.  The first
conjunct states this generally over a loop pass; the second and third
show the ordinary user-written vector `[:payload 42]` ending the loop
with `Numeric(42)`, with a result identical to that of
`(loop (return 42))`. -/
theorem C10_loop_payload_mapping :
    (∀ (ev : Amalgam → Nat → Store → Res) (next : Store → Res)
       (e : Amalgam) (rest : List Amalgam) (ρ : Nat) (s : Store)
       (v pv : Amalgam) (s₁ : Store),
       ev e ρ s = .ok v s₁ → payloadOf "payload" v = some pv →
       loopPassF ev next (e :: rest) ρ s = .ok pv s₁) ∧
    (eval 30 (.sexpression [.symbol "loop",
       .vector [.atom "payload", .numeric 42]]) 0 rootStore =
       .ok (.numeric 42) rootStore) ∧
    (eval 30 (.sexpression [.symbol "loop",
       .vector [.atom "payload", .numeric 42]]) 0 rootStore =
     eval 30 (.sexpression [.symbol "loop",
       .sexpression [.symbol "return", .numeric 42]]) 0 rootStore) := by
  refine ⟨?_, rfl, rfl⟩
  intro ev next e rest ρ s v pv s₁ h1 h2
  simp only [loopPassF, h1, h2]

/-- C10 witness: a loop pass over the literal vector `[:payload 7]`. -/
theorem C10_loop_payload_mapping_witness :
    loopPassF (eval 3) (fun _s => Res.timeout)
        [.vector [.atom "payload", .numeric 7]] 0 rootStore =
      .ok (.numeric 7) rootStore :=
  C10_loop_payload_mapping.1 (eval 3) (fun _s => Res.timeout)
    (.vector [.atom "payload", .numeric 7]) [] 0 rootStore
    (.vector [.atom "payload", .numeric 7]) (.numeric 7) rootStore rfl rfl

end AmalgamLisp
